import Mathlib

/-!
Verification development for the `ai-blogs-generator` pipeline.

This file gives a shallow embedding, in Lean 4, of the string-processing,
retry, topic-uniqueness and index-rebuilding logic of the repository's
scripts, and proves (or refutes) the behavioural claims made about them.

Strings are modelled as `List Char` (`Str`); JavaScript string primitives
(`substring`, `indexOf`, `lastIndexOf`, `trim`, `replace` of the concrete
regexes appearing in the sources) are implemented as executable list
functions that mirror the library behaviour on the inputs the scripts use.
-/

/-- Strings of the embedded programs: JavaScript strings as lists of
characters. -/
abbrev Str := List Char

/-- Coerce a Lean string literal to the embedded string type. -/
def toStr (s : String) : Str := s.data

/-- JavaScript whitespace (the `\s` class and `String.prototype.trim`),
restricted to the ASCII / Latin-1 characters that can occur in the
pipeline's data: space, tab, line feed, carriage return, vertical tab,
form feed and no-break space. -/
def isWsChar (c : Char) : Bool :=
  c == (' ') || c == ('\t') || c == ('\n') || c == ('\r') ||
  c == Char.ofNat 11 || c == Char.ofNat 12 || c == Char.ofNat 160

/-- JavaScript `String.prototype.trim`: drop whitespace from both ends. -/
def jsTrim (s : Str) : Str :=
  ((s.dropWhile isWsChar).reverse.dropWhile isWsChar).reverse

/-- JavaScript `String.prototype.toLowerCase`, character by character. -/
def toLowerStr (s : Str) : Str := s.map Char.toLower

/-- Replace every occurrence of the character `a` by `b`
(JavaScript `replace(/a/g, b)` for a single-character pattern). -/
def replaceChar (a b : Char) (s : Str) : Str :=
  s.map (fun c => if c = a then b else c)

/-- One pass of JavaScript `replace(/X+/g, c)` for a character class `X`:
every maximal run of characters satisfying `p` becomes the single
character `c`.  The Boolean flag records whether the previous character
belonged to the current run (so further run characters are dropped
rather than replaced again). -/
def replaceRunsAux (p : Char → Bool) (c : Char) : Str → Bool → Str
  | [], _ => []
  | x :: xs, inRun =>
    if p x then
      if inRun then replaceRunsAux p c xs true
      else c :: replaceRunsAux p c xs true
    else x :: replaceRunsAux p c xs false

/-- JavaScript `replace(/X+/g, c)` for a character class `X`. -/
def replaceRuns (p : Char → Bool) (c : Char) (s : Str) : Str :=
  replaceRunsAux p c s false

theorem mem_replaceRunsAux (p : Char → Bool) (c : Char) :
    ∀ s : Str, ∀ b y, y ∈ replaceRunsAux p c s b → y = c ∨ (y ∈ s ∧ p y = false) := by
  intro s
  induction s with
  | nil => intro b y h; simp [replaceRunsAux] at h
  | cons x xs ih =>
    intro b y h
    rw [replaceRunsAux] at h
    by_cases hp : p x
    · rw [if_pos hp] at h
      cases b with
      | true =>
        simp only [if_pos] at h
        rcases ih true y h with h2 | ⟨h2, h3⟩
        · exact Or.inl h2
        · exact Or.inr ⟨List.mem_cons_of_mem _ h2, h3⟩
      | false =>
        simp only [Bool.false_eq_true, if_neg, if_false] at h
        rcases List.mem_cons.mp h with h1 | h1
        · exact Or.inl h1
        · rcases ih true y h1 with h2 | ⟨h2, h3⟩
          · exact Or.inl h2
          · exact Or.inr ⟨List.mem_cons_of_mem _ h2, h3⟩
    · rw [if_neg hp] at h
      rcases List.mem_cons.mp h with h1 | h1
      · subst h1; exact Or.inr ⟨List.mem_cons_self _ _, Bool.of_not_eq_true hp⟩
      · rcases ih false y h1 with h2 | ⟨h2, h3⟩
        · exact Or.inl h2
        · exact Or.inr ⟨List.mem_cons_of_mem _ h2, h3⟩

theorem mem_replaceRuns (p : Char → Bool) (c : Char) :
    ∀ s : Str, ∀ y, y ∈ replaceRuns p c s → y = c ∨ (y ∈ s ∧ p y = false) :=
  fun s y h => mem_replaceRunsAux p c s false y h

theorem replaceRunsAux_true_head (p : Char → Bool) (c : Char) :
    ∀ s : Str, ∀ y, (replaceRunsAux p c s true).head? = some y → p y = false := by
  intro s
  induction s with
  | nil => intro y h; simp [replaceRunsAux] at h
  | cons x xs ih =>
    intro y h
    rw [replaceRunsAux] at h
    by_cases hp : p x
    · rw [if_pos hp, if_pos rfl] at h
      exact ih y h
    · rw [if_neg hp] at h
      have hxy : x = y := by simpa using h
      subst hxy
      exact Bool.of_not_eq_true hp

theorem replaceRunsAux_chain (p : Char → Bool) (c : Char) :
    ∀ s : Str, ∀ b,
      List.Chain' (fun a d => ¬(p a = true ∧ p d = true)) (replaceRunsAux p c s b) := by
  intro s
  induction s with
  | nil => intro b; simp [replaceRunsAux]
  | cons x xs ih =>
    intro b
    rw [replaceRunsAux]
    by_cases hp : p x
    · rw [if_pos hp]
      cases b with
      | true => exact ih true
      | false =>
        simp only [Bool.false_eq_true, if_false]
        refine List.chain'_cons'.mpr ⟨?_, ih true⟩
        intro y hy
        have hyf := replaceRunsAux_true_head p c xs y hy
        intro hcontra
        rw [hyf] at hcontra
        exact Bool.false_ne_true hcontra.2
    · rw [if_neg hp]
      refine List.chain'_cons'.mpr ⟨?_, ih false⟩
      intro y _
      intro hcontra
      exact hp hcontra.1

/-- Characters forming a run in the output of `replaceRuns` never put two
`p`-characters side by side: runs were collapsed. -/
theorem replaceRuns_chain (p : Char → Bool) (c : Char) :
    ∀ s : Str, List.Chain' (fun a b => ¬(p a = true ∧ p b = true)) (replaceRuns p c s) :=
  fun s => replaceRunsAux_chain p c s false

/-- JavaScript `replace(/^X/, '')` for a character class `X`: drop at most
one leading character satisfying `p`. The global regex `/^X|X$/g` used by
the slugifiers removes one character at each end; this is the `^X` half. -/
def dropHeadIfP (p : Char → Bool) : Str → Str
  | [] => []
  | x :: xs => if p x then xs else x :: xs

/-- The `X$` half of `/^X|X$/g`: drop at most one trailing character
satisfying `p`. -/
def dropLastIfP (p : Char → Bool) : Str → Str
  | [] => []
  | [x] => if p x then [] else [x]
  | x :: y :: rest => x :: dropLastIfP p (y :: rest)

theorem mem_dropHeadIfP (p : Char → Bool) :
    ∀ s : Str, ∀ y, y ∈ dropHeadIfP p s → y ∈ s := by
  intro s y h
  match s with
  | [] => simp [dropHeadIfP] at h
  | x :: xs =>
    rw [dropHeadIfP] at h
    by_cases hp : p x
    · rw [if_pos hp] at h; exact List.mem_cons_of_mem _ h
    · rw [if_neg hp] at h; exact h

theorem mem_dropLastIfP (p : Char → Bool) :
    ∀ s : Str, ∀ y, y ∈ dropLastIfP p s → y ∈ s := by
  intro s
  induction s using dropLastIfP.induct p with
  | case1 => intro y h; simp [dropLastIfP] at h
  | case2 x hp =>
    intro y h
    rw [dropLastIfP, if_pos hp] at h
    simp at h
  | case3 x hp =>
    intro y h
    rw [dropLastIfP, if_neg hp] at h
    exact h
  | case4 x z rest ih =>
    intro y h
    rw [dropLastIfP] at h
    rcases List.mem_cons.mp h with h1 | h1
    · simp [h1]
    · exact List.mem_cons_of_mem _ (ih y h1)

theorem head_dropHeadIfP (p : Char → Bool) (s : Str)
    (hch : List.Chain' (fun a b => ¬(p a = true ∧ p b = true)) s) :
    ∀ y, (dropHeadIfP p s).head? = some y → p y = false := by
  intro y h
  match s with
  | [] => simp [dropHeadIfP] at h
  | x :: xs =>
    rw [dropHeadIfP] at h
    by_cases hp : p x
    · rw [if_pos hp] at h
      match xs, h with
      | z :: zs, h =>
        have hz : x = x ∧ z = z → True := fun _ => trivial
        have hR := (List.chain'_cons.mp hch).1
        have hzy : z = y := by simpa using h
        subst hzy
        by_contra hc
        exact hR ⟨hp, Bool.of_not_eq_false hc⟩
    · rw [if_neg hp] at h
      have hxy : x = y := by simpa using h
      subst hxy
      exact Bool.of_not_eq_true hp

theorem chain_dropHeadIfP (p : Char → Bool) (s : Str)
    (hch : List.Chain' (fun a b => ¬(p a = true ∧ p b = true)) s) :
    List.Chain' (fun a b => ¬(p a = true ∧ p b = true)) (dropHeadIfP p s) := by
  match s with
  | [] => simp [dropHeadIfP]
  | x :: xs =>
    rw [dropHeadIfP]
    by_cases hp : p x
    · rw [if_pos hp]; exact (List.chain'_cons'.mp hch).2
    · rw [if_neg hp]; exact hch

theorem head_dropLastIfP (p : Char → Bool) :
    ∀ s : Str, ∀ y, (dropLastIfP p s).head? = some y → s.head? = some y := by
  intro s
  induction s using dropLastIfP.induct p with
  | case1 => intro y h; simp [dropLastIfP] at h
  | case2 x hp =>
    intro y h
    rw [dropLastIfP, if_pos hp] at h
    simp at h
  | case3 x hp =>
    intro y h
    rw [dropLastIfP, if_neg hp] at h
    exact h
  | case4 x z rest ih =>
    intro y h
    rw [dropLastIfP] at h
    simp at h ⊢
    simpa using h

theorem getLast_dropLastIfP (p : Char → Bool) :
    ∀ s : Str,
      List.Chain' (fun a b => ¬(p a = true ∧ p b = true)) s →
      ∀ y, (dropLastIfP p s).getLast? = some y → p y = false := by
  intro s
  induction s using dropLastIfP.induct p with
  | case1 => intro _ y h; simp [dropLastIfP] at h
  | case2 x hp =>
    intro _ y h
    rw [dropLastIfP, if_pos hp] at h
    simp at h
  | case3 x hp =>
    intro _ y h
    rw [dropLastIfP, if_neg hp] at h
    have hxy : x = y := by simpa using h
    subst hxy
    exact Bool.of_not_eq_true hp
  | case4 x z rest ih =>
    intro hch y h
    rw [dropLastIfP] at h
    have hR := (List.chain'_cons.mp hch).1
    have hch2 := (List.chain'_cons.mp hch).2
    match hd : dropLastIfP p (z :: rest) with
    | [] =>
      rw [hd] at h
      have hxy : x = y := by simpa using h
      subst hxy
      match rest, hd with
      | [], hd =>
        rw [dropLastIfP] at hd
        by_cases hpz : p z
        · by_contra hc
          exact hR ⟨Bool.of_not_eq_false hc, hpz⟩
        · rw [if_neg hpz] at hd; simp at hd
    | w :: ws =>
      rw [hd] at h
      rw [List.getLast?_cons_cons] at h
      rw [← hd] at h
      exact ih hch2 y h

/-- The hyphen test used throughout the slugifiers. -/
def isHyphen (c : Char) : Bool := c == ('-')

/-- Lowercase latin letter. -/
def isLowerAZ (c : Char) : Bool := decide ((('a') ≤ c) ∧ (c ≤ ('z')))

/-- Decimal digit. -/
def isDigit09 (c : Char) : Bool := decide ((('0') ≤ c) ∧ (c ≤ ('9')))

/-- Character class kept by `generateSlug`'s first replace: the complement
of the deleted class in `replace(/[^a-z0-9\s-]/g, '')`
(enhanced-topic-generator.ts line 118). -/
def keepSlugChar (c : Char) : Bool :=
  isLowerAZ c || isDigit09 c || isWsChar c || isHyphen c

/-- The final `replace(/^-|-$/g, '')` step of both slug paths: remove one
leading and one trailing hyphen. -/
def trimEdgeHyphens (s : Str) : Str :=
  dropLastIfP isHyphen (dropHeadIfP isHyphen s)

/-- Model of `generateSlug` (enhanced-topic-generator.ts lines 115-122): lowercase,
strip characters outside the kept class, turn whitespace runs into
hyphens, collapse hyphen runs, and drop one leading/trailing hyphen. -/
def generateSlug (title : Str) : Str :=
  trimEdgeHyphens
    (replaceRuns isHyphen ('-')
      (replaceRuns isWsChar ('-')
        ((toLowerStr title).filter keepSlugChar)))

/-- Characters stripped (one at each end) from the raw AI slug by
`replace(/^[\\"\'`]|[\\"\'`]$/g, '')` (line 181): backslash, double
quote, single quote, backtick. -/
def quoteStripChar (c : Char) : Bool :=
  c == ('\\') || c == Char.ofNat 34 || c == Char.ofNat 39 || c == Char.ofNat 96

/-- State machine for `replace(/\\n+/g, '-')` (line 182).  Note the
doubled backslash in the source regex: it matches a literal backslash
character followed by one or more letters n — not a newline.  State 0:
normal scan; state 1: a backslash has been read and is pending (it is a
match start exactly when the next character is an n); state 2: inside the
n-run of a match already replaced by a hyphen (further n characters are
consumed). -/
def replaceBackslashNAux : Str → Nat → Str
  | [], st => if st == 1 then [('\\')] else []
  | x :: xs, st =>
    if st == 1 then
      if x == ('n') then ('-') :: replaceBackslashNAux xs 2
      else if x == ('\\') then ('\\') :: replaceBackslashNAux xs 1
      else ('\\') :: x :: replaceBackslashNAux xs 0
    else if st == 2 then
      if x == ('n') then replaceBackslashNAux xs 2
      else if x == ('\\') then replaceBackslashNAux xs 1
      else x :: replaceBackslashNAux xs 0
    else
      if x == ('\\') then replaceBackslashNAux xs 1
      else x :: replaceBackslashNAux xs 0

/-- Shorthand for `replace(/\\n+/g, '-')`: replace each literal-backslash-plus-n-run
by a single hyphen. -/
def replaceBackslashN (s : Str) : Str := replaceBackslashNAux s 0

/-- Cleanup applied to the raw text of the AI slug response
(generateAISlug, lines 178-184): trim, strip one leading/trailing
quote-like character, replace literal backslash-n sequences, collapse
hyphen runs, drop one leading/trailing hyphen. -/
def cleanupAISlug (raw : Str) : Str :=
  trimEdgeHyphens
    (replaceRuns isHyphen ('-')
      (replaceBackslashN
        (dropLastIfP quoteStripChar (dropHeadIfP quoteStripChar (jsTrim raw)))))

/-- Model of `generateAISlug` (enhanced-topic-generator.ts lines 128-200), as a
function of the environment's response.  `none` models a missing API key,
a non-OK response or a thrown error — every such path falls back to
`generateSlug`.  `some raw` models a successful response whose message
text is `raw`; the cleaned slug is kept only if it is nonempty, at least
3 characters long and contains a hyphen (line 187), otherwise the
fallback is used. -/
def generateAISlug (title : Str) (apiResult : Option Str) : Str :=
  match apiResult with
  | none => generateSlug title
  | some raw =>
    if cleanupAISlug raw = [] ∨ (cleanupAISlug raw).length < 3 ∨
        (cleanupAISlug raw).contains ('-') = false then
      generateSlug title
    else cleanupAISlug raw

/-- Spec-side well-formedness: one or more characters from `[a-z0-9-]`. -/
def slugCharOk (c : Char) : Bool := isLowerAZ c || isDigit09 c || isHyphen c

/-- The spec's slug shape: matches the regex `[a-z0-9-]+`. -/
def matchesSlugRegex (s : Str) : Bool := !s.isEmpty && s.all slugCharOk

/-- Spec-side: no leading or trailing hyphen. -/
def noEdgeHyphen (s : Str) : Bool :=
  !(s.head? == some ('-')) && !(s.getLast? == some ('-'))

theorem noEdge_of_chain (s : Str)
    (hch : List.Chain' (fun a b => ¬(isHyphen a = true ∧ isHyphen b = true)) s) :
    noEdgeHyphen (trimEdgeHyphens s) = true := by
  rw [noEdgeHyphen, Bool.and_eq_true]
  constructor
  · cases hh : (trimEdgeHyphens s).head? with
    | none => simp [hh]
    | some y =>
      have h1 := head_dropLastIfP isHyphen _ y hh
      have h2 : (y == ('-')) = false := head_dropHeadIfP isHyphen s hch y h1
      simp [hh, beq_eq_false_iff_ne.mp h2]
  · cases hh : (trimEdgeHyphens s).getLast? with
    | none => simp [hh]
    | some y =>
      have hch2 := chain_dropHeadIfP isHyphen s hch
      have h2 : (y == ('-')) = false :=
        getLast_dropLastIfP isHyphen (dropHeadIfP isHyphen s) hch2 y hh
      simp [hh, beq_eq_false_iff_ne.mp h2]

theorem generateSlug_chars (title : Str) :
    ∀ y ∈ generateSlug title, slugCharOk y = true := by
  intro y hy
  rw [generateSlug, trimEdgeHyphens] at hy
  have hy1 := mem_dropHeadIfP isHyphen _ y (mem_dropLastIfP isHyphen _ y hy)
  rcases mem_replaceRuns isHyphen ('-') _ y hy1 with h1 | ⟨h1, _⟩
  · subst h1; decide
  · rcases mem_replaceRuns isWsChar ('-') _ y h1 with h2 | ⟨h2, h3⟩
    · subst h2; decide
    · have h4 := (List.mem_filter.mp h2).2
      simp only [keepSlugChar, Bool.or_eq_true] at h4
      simp only [slugCharOk, Bool.or_eq_true]
      rcases h4 with ((h5 | h5) | h5) | h5
      · exact Or.inl (Or.inl h5)
      · exact Or.inl (Or.inr h5)
      · rw [h5] at h3; exact absurd h3 (by simp)
      · exact Or.inr h5

/-- C4, counterexample to the claim as stated: the AI-produced slug
`Sugar-Free!` survives validation (nonempty, length at least 3, contains
a hyphen) and is returned unchanged, although it fails the claimed
`[a-z0-9-]+` shape (uppercase letter and exclamation mark). -/
theorem c4_counterexample :
    matchesSlugRegex
      (generateAISlug (toStr ("Sugar Detox Guide")) (some (toStr ("Sugar-Free!")))) = false := by
  decide

/-- C4, amended: the fallback `generateSlug` always yields a (possibly
empty) string over `[a-z0-9-]` with no leading or trailing hyphen; an
AI-produced slug is either replaced by that fallback, or is kept after
cleanup, in which case it is at least 3 characters long, contains a
hyphen, and has no leading or trailing hyphen — but its character set is
not validated. -/
theorem c4_amended (title : Str) (apiResult : Option Str) :
    ((generateSlug title).all slugCharOk = true
      ∧ noEdgeHyphen (generateSlug title) = true)
    ∧ (generateAISlug title apiResult = generateSlug title
        ∨ (3 ≤ (generateAISlug title apiResult).length
            ∧ (generateAISlug title apiResult).contains ('-') = true
            ∧ noEdgeHyphen (generateAISlug title apiResult) = true)) := by
  constructor
  · constructor
    · rw [List.all_eq_true]
      intro y hy
      exact generateSlug_chars title y hy
    · rw [generateSlug]
      exact noEdge_of_chain _ (replaceRuns_chain isHyphen ('-') _)
  · match apiResult with
    | none => exact Or.inl rfl
    | some raw =>
      rw [generateAISlug]
      by_cases hval : cleanupAISlug raw = [] ∨ (cleanupAISlug raw).length < 3 ∨
          (cleanupAISlug raw).contains ('-') = false
      · rw [if_pos hval]; exact Or.inl rfl
      · rw [if_neg hval]
        push_neg at hval
        obtain ⟨h1, h2, h3⟩ := hval
        refine Or.inr ⟨by omega, ?_, ?_⟩
        · cases hc : (cleanupAISlug raw).contains ('-') with
          | false => exact absurd hc h3
          | true => rfl
        · rw [cleanupAISlug]
          exact noEdge_of_chain _ (replaceRuns_chain isHyphen ('-') _)

/-- Newline-to-space normalisation applied to the trimmed AI response in
`generateMetaDescription` (aiBlogGenerator.ts line 576:
`replace(/\n/g, ' ')` after `.trim()`). -/
def metaNormalize (response : Str) : Str :=
  replaceChar ('\n') (' ') (jsTrim response)

/-- The post-hoc length clamp (lines 577-579): responses longer than 155
characters are cut to their first 152 characters plus an ellipsis. -/
def metaClamp (response : Str) : Str :=
  let d := metaNormalize response
  if 155 < d.length then d.take 152 ++ toStr ("...") else d

/-- Error message thrown when the clamped description is too short. -/
def metaShortMsg : String := "Generated meta description too short, aborting."

/-- Model of `generateMetaDescription` (aiBlogGenerator.ts lines 509-587) as a
function of the title and of the successful AI response text: trim the
response, replace newlines by spaces, clamp to 155 characters, and throw
if the result is shorter than 50 characters while the title is non-empty
(line 580: `if (generatedMetaDesc.length < 50 && title)`). -/
def generateMetaDescription (title response : Str) : Except String Str :=
  let d := metaClamp response
  if d.length < 50 ∧ title ≠ [] then Except.error metaShortMsg
  else Except.ok d

deriving instance DecidableEq for Except

/-- Suffix test: `s` ends with `suf`. -/
def strEndsWith (s suf : Str) : Bool :=
  decide ((s.reverse.take suf.length) = suf.reverse)

theorem metaNormalize_length (response : Str) :
    (metaNormalize response).length = (jsTrim response).length := by
  rw [metaNormalize, replaceChar]
  exact List.length_map _ _

set_option maxRecDepth 8000 in
/-- C8, counterexample to the claim as stated: a 160-character trimmed
response containing an interior newline is truncated, but the returned
text is not the response's first 152 characters followed by an ellipsis —
the newline at position 5 has been replaced by a space first. -/
theorem c8_counterexample :
    (jsTrim (toStr ("abcde") ++ ('\n') :: List.replicate 154 ('x'))).length = 160 ∧
    generateMetaDescription (toStr ("T"))
        (toStr ("abcde") ++ ('\n') :: List.replicate 154 ('x')) ≠
      Except.ok
        ((jsTrim (toStr ("abcde") ++ ('\n') :: List.replicate 154 ('x'))).take 152 ++
          toStr ("...")) := by
  decide

/-- C8, amended: for every AI response whose trimmed text exceeds 155
characters, `generateMetaDescription` returns the first 152 characters of
the trimmed, newline-to-space-normalised response followed by an
ellipsis; the returned string has length exactly 155 (hence at most 155)
and ends with the three characters of the ellipsis. -/
theorem c8_amended (title response : Str) (h : 155 < (jsTrim response).length) :
    generateMetaDescription title response =
      Except.ok ((metaNormalize response).take 152 ++ toStr ("...")) ∧
    ((metaNormalize response).take 152 ++ toStr ("...")).length = 155 ∧
    strEndsWith ((metaNormalize response).take 152 ++ toStr ("...")) (toStr ("...")) = true := by
  have hn : 155 < (metaNormalize response).length := by
    rw [metaNormalize_length]; exact h
  have hclamp : metaClamp response = (metaNormalize response).take 152 ++ toStr ("...") := by
    rw [metaClamp]
    simp only [if_pos hn]
  have hlen : ((metaNormalize response).take 152 ++ toStr ("...")).length = 155 := by
    rw [List.length_append, List.length_take]
    have h3 : (toStr ("...")).length = 3 := rfl
    have : min 152 (metaNormalize response).length = 152 := by omega
    rw [this, h3]
  refine ⟨?_, hlen, ?_⟩
  · rw [generateMetaDescription]
    simp only [hclamp]
    rw [if_neg]
    intro hcontra
    omega
  · rw [strEndsWith, List.reverse_append]
    simp

set_option maxRecDepth 8000 in
/-- Witness for the C8 amended theorem: a 160-character response without
newlines is clamped to its first 152 characters plus an ellipsis. -/
theorem c8_witness :
    155 < (jsTrim (List.replicate 160 ('x'))).length ∧
    generateMetaDescription (toStr ("T")) (List.replicate 160 ('x')) =
      Except.ok ((metaNormalize (List.replicate 160 ('x'))).take 152 ++ toStr ("...")) :=
  ⟨by decide, (c8_amended (toStr ("T")) (List.replicate 160 ('x')) (by decide)).1⟩

theorem metaClamp_length_le (response : Str) : (metaClamp response).length ≤ 155 := by
  rw [metaClamp]
  by_cases h : 155 < (metaNormalize response).length
  · simp only [if_pos h]
    rw [List.length_append, List.length_take]
    have h3 : (toStr ("...")).length = 3 := rfl
    omega
  · simp only [if_neg h]
    omega

/-- C9 (confirmed): with a non-empty title, a cleaned-and-clamped
description shorter than 50 characters makes `generateMetaDescription`
throw, and consequently every successfully returned description has
length between 50 and 155. -/
theorem c9_short_throws (title response : Str) (ht : title ≠ []) :
    ((metaClamp response).length < 50 →
      generateMetaDescription title response = Except.error metaShortMsg)
    ∧ (∀ s, generateMetaDescription title response = Except.ok s →
        50 ≤ s.length ∧ s.length ≤ 155) := by
  constructor
  · intro hlt
    rw [generateMetaDescription]
    simp only [if_pos (And.intro hlt ht)]
  · intro s hs
    rw [generateMetaDescription] at hs
    by_cases hc : (metaClamp response).length < 50 ∧ title ≠ []
    · rw [if_pos hc] at hs
      exact absurd hs (by simp)
    · rw [if_neg hc] at hs
      have hseq : metaClamp response = s := by simpa using hs
      have hge : ¬ (metaClamp response).length < 50 := fun hlt => hc ⟨hlt, ht⟩
      have hle := metaClamp_length_le response
      rw [hseq] at hge hle
      exact ⟨by omega, hle⟩

/-- Witness for C9: a 60-character response is returned unchanged and its
length lies in the required range. -/
theorem c9_witness :
    toStr ("T") ≠ [] ∧
    (50 ≤ (List.replicate 60 ('x') : Str).length ∧
      (List.replicate 60 ('x') : Str).length ≤ 155) :=
  ⟨by decide,
    (c9_short_throws (toStr ("T")) (List.replicate 60 ('x')) (by decide)).2
      (List.replicate 60 ('x')) (by decide)⟩

/-- Does `needle` occur at the start of `hay`? -/
def strStartsWith : Str → Str → Bool
  | _, [] => true
  | [], _ :: _ => false
  | h :: hs, n :: ns => h == n && strStartsWith hs ns

/-- Start index of the first occurrence of `needle` in `hay`
(JavaScript `indexOf` without offset; `none` models the `-1` result). -/
def findOcc (needle : Str) : Str → Option Nat
  | [] => if needle = [] then some 0 else none
  | h :: hs =>
    if strStartsWith (h :: hs) needle then some 0
    else (findOcc needle hs).map (· + 1)

/-- JavaScript `hay.indexOf(needle, start)`. -/
def indexOfFrom (hay needle : Str) (start : Nat) : Option Nat :=
  (findOcc needle (hay.drop start)).map (· + start)

/-- Occurrence test at a given index. -/
def occursAtB (hay needle : Str) (i : Nat) : Bool := strStartsWith (hay.drop i) needle

/-- JavaScript `hay.lastIndexOf(needle, bound)`: the largest start index at most
`bound` at which `needle` occurs. -/
def lastIndexOfUpTo (hay needle : Str) : Nat → Option Nat
  | 0 => if occursAtB hay needle 0 then some 0 else none
  | b + 1 =>
    if occursAtB hay needle (b + 1) then some (b + 1)
    else lastIndexOfUpTo hay needle b

/-- JavaScript `String.prototype.includes`. -/
def strIncludes (hay needle : Str) : Bool := (findOcc needle hay).isSome

theorem findOcc_spec_some (needle : Str) :
    ∀ hay : Str, ∀ i, findOcc needle hay = some i →
      occursAtB hay needle i = true ∧ ∀ j < i, occursAtB hay needle j = false := by
  intro hay
  induction hay with
  | nil =>
    intro i h
    rw [findOcc] at h
    by_cases hn : needle = ([] : Str)
    · rw [if_pos hn] at h
      have hi : i = 0 := by simpa using h.symm
      subst hi
      subst hn
      exact ⟨rfl, fun j hj => absurd hj (Nat.not_lt_zero j)⟩
    · rw [if_neg hn] at h
      simp at h
  | cons x xs ih =>
    intro i h
    rw [findOcc] at h
    by_cases hs : strStartsWith (x :: xs) needle = true
    · rw [if_pos hs] at h
      have hi : i = 0 := by simpa using h.symm
      subst hi
      exact ⟨by simpa [occursAtB] using hs, fun j hj => absurd hj (Nat.not_lt_zero j)⟩
    · rw [if_neg hs] at h
      match e : findOcc needle xs with
      | none => rw [e] at h; simp at h
      | some i' =>
        rw [e] at h
        simp at h
        obtain ⟨ho, hmin⟩ := ih i' e
        subst h
        constructor
        · simpa [occursAtB, List.drop_succ_cons] using ho
        · intro j hj
          match j with
          | 0 =>
            simpa [occursAtB] using Bool.of_not_eq_true hs
          | j' + 1 =>
            have hj' : j' < i' := by omega
            simpa [occursAtB, List.drop_succ_cons] using hmin j' hj'

theorem findOcc_spec_none (needle : Str) :
    ∀ hay : Str, findOcc needle hay = none →
      ∀ j, occursAtB hay needle j = false := by
  intro hay
  induction hay with
  | nil =>
    intro h j
    rw [findOcc] at h
    by_cases hn : needle = ([] : Str)
    · rw [if_pos hn] at h; simp at h
    · rw [if_neg hn] at h
      match needle, hn with
      | n :: ns, _ => simp [occursAtB, strStartsWith, List.drop_nil]
  | cons x xs ih =>
    intro h j
    rw [findOcc] at h
    by_cases hs : strStartsWith (x :: xs) needle = true
    · rw [if_pos hs] at h; simp at h
    · rw [if_neg hs] at h
      match j with
      | 0 => simpa [occursAtB] using Bool.of_not_eq_true hs
      | j' + 1 =>
        have h2 : findOcc needle xs = none := by
          match e : findOcc needle xs with
          | none => rfl
          | some k => rw [e] at h; simp at h
        simpa [occursAtB, List.drop_succ_cons] using ih h2 j'

theorem occursAtB_drop (hay needle : Str) (s k : Nat) :
    occursAtB (hay.drop s) needle k = occursAtB hay needle (s + k) := by
  rw [occursAtB, occursAtB, List.drop_drop]

theorem indexOfFrom_spec_some (hay needle : Str) (start i : Nat)
    (h : indexOfFrom hay needle start = some i) :
    start ≤ i ∧ occursAtB hay needle i = true ∧
      ∀ j, start ≤ j → j < i → occursAtB hay needle j = false := by
  rw [indexOfFrom] at h
  match e : findOcc needle (hay.drop start) with
  | none => rw [e] at h; simp at h
  | some k =>
    rw [e] at h
    simp at h
    obtain ⟨ho, hmin⟩ := findOcc_spec_some needle _ k e
    rw [occursAtB_drop] at ho
    subst h
    refine ⟨by omega, by rw [Nat.add_comm k start]; exact ho, ?_⟩
    intro j hj1 hj2
    have := hmin (j - start) (by omega)
    rw [occursAtB_drop] at this
    have hj3 : start + (j - start) = j := by omega
    rw [hj3] at this
    exact this

theorem indexOfFrom_spec_none (hay needle : Str) (start : Nat)
    (h : indexOfFrom hay needle start = none) :
    ∀ j, start ≤ j → occursAtB hay needle j = false := by
  intro j hj
  rw [indexOfFrom] at h
  match e : findOcc needle (hay.drop start) with
  | some k => rw [e] at h; simp at h
  | none =>
    have := findOcc_spec_none needle _ e (j - start)
    rw [occursAtB_drop] at this
    have hj3 : start + (j - start) = j := by omega
    rw [hj3] at this
    exact this

theorem lastIndexOfUpTo_spec_some (hay needle : Str) :
    ∀ b k, lastIndexOfUpTo hay needle b = some k →
      occursAtB hay needle k = true ∧ k ≤ b ∧
        ∀ j, k < j → j ≤ b → occursAtB hay needle j = false := by
  intro b
  induction b with
  | zero =>
    intro k h
    rw [lastIndexOfUpTo] at h
    by_cases ho : occursAtB hay needle 0 = true
    · rw [if_pos ho] at h
      have hk : k = 0 := by simpa using h.symm
      subst hk
      exact ⟨ho, Nat.le_refl 0, fun j hj1 hj2 => by omega⟩
    · rw [if_neg ho] at h; simp at h
  | succ b ih =>
    intro k h
    rw [lastIndexOfUpTo] at h
    by_cases ho : occursAtB hay needle (b + 1) = true
    · rw [if_pos ho] at h
      have hk : k = b + 1 := by simpa using h.symm
      subst hk
      exact ⟨ho, Nat.le_refl _, fun j hj1 hj2 => by omega⟩
    · rw [if_neg ho] at h
      obtain ⟨h1, h2, h3⟩ := ih k h
      refine ⟨h1, by omega, ?_⟩
      intro j hj1 hj2
      by_cases hj : j = b + 1
      · subst hj; exact Bool.of_not_eq_true ho
      · exact h3 j hj1 (by omega)

theorem lastIndexOfUpTo_spec_none (hay needle : Str) :
    ∀ b, lastIndexOfUpTo hay needle b = none →
      ∀ j ≤ b, occursAtB hay needle j = false := by
  intro b
  induction b with
  | zero =>
    intro h j hj
    rw [lastIndexOfUpTo] at h
    by_cases ho : occursAtB hay needle 0 = true
    · rw [if_pos ho] at h; simp at h
    · rw [if_neg ho] at h
      have hj0 : j = 0 := by omega
      subst hj0
      exact Bool.of_not_eq_true ho
  | succ b ih =>
    intro h j hj
    rw [lastIndexOfUpTo] at h
    by_cases ho : occursAtB hay needle (b + 1) = true
    · rw [if_pos ho] at h; simp at h
    · rw [if_neg ho] at h
      by_cases hjb : j = b + 1
      · subst hjb; exact Bool.of_not_eq_true ho
      · exact ih h j (by omega)

/-- The video placeholder token (aiBlogGenerator.ts line 359). -/
def videoToken : Str := toStr ("<!-- YOUTUBE_VIDEO_PLACEHOLDER -->")

/-- Token wrapped in double newlines, as inserted after a table or a
paragraph end. -/
def nlWrap2 : Str := ('\n') :: ('\n') :: (videoToken ++ [('\n'), ('\n')])

/-- Token wrapped in single newlines, as inserted at the raw midpoint. -/
def nlWrap1 : Str := ('\n') :: (videoToken ++ [('\n')])

/-- Insertion `s.slice(0, i) + ins + s.slice(i)`. -/
def spliceAt (s ins : Str) (i : Nat) : Str := s.take i ++ ins ++ s.drop i

/-- Closing table tag (8 characters). -/
def tableCloseTag : Str := toStr ("</table>")

/-- Closing paragraph tag (4 characters). -/
def pCloseTag : Str := toStr ("</p>")

/-- The video-placeholder insertion step of `generateBlogContent`
(aiBlogGenerator.ts lines 358-382): insert the token right after the
first closing table tag; failing that, after the first closing paragraph
tag found at or after the midpoint, then after the last one before the
midpoint, then at the raw midpoint. -/
def insertVideoPlaceholder (content : Str) : Str :=
  match indexOfFrom content tableCloseTag 0 with
  | some i => spliceAt content nlWrap2 (i + 8)
  | none =>
    match indexOfFrom content pCloseTag (content.length / 2) with
    | some k => spliceAt content nlWrap2 (k + 4)
    | none =>
      match lastIndexOfUpTo content pCloseTag (content.length / 2) with
      | some k => spliceAt content nlWrap2 (k + 4)
      | none => spliceAt content nlWrap1 (content.length / 2)

/-- C5, counterexample to the claim as stated: in a table-free content
whose closing paragraph tags start at indices 8 and 24 and whose midpoint
is 14, the paragraph boundary nearest the midpoint is the one at 8, but
the code inserts the token after the one at 24 (the first occurrence at
or after the midpoint). -/
theorem c5_counterexample :
    occursAtB (toStr ("cccccccc</p>dddddddddddd</p>")) pCloseTag 8 = true ∧
    occursAtB (toStr ("cccccccc</p>dddddddddddd</p>")) pCloseTag 24 = true ∧
    strIncludes (toStr ("cccccccc</p>dddddddddddd</p>")) tableCloseTag = false ∧
    (toStr ("cccccccc</p>dddddddddddd</p>")).length / 2 = 14 ∧
    insertVideoPlaceholder (toStr ("cccccccc</p>dddddddddddd</p>")) =
      spliceAt (toStr ("cccccccc</p>dddddddddddd</p>")) nlWrap2 28 ∧
    insertVideoPlaceholder (toStr ("cccccccc</p>dddddddddddd</p>")) ≠
      spliceAt (toStr ("cccccccc</p>dddddddddddd</p>")) nlWrap2 12 := by
  decide

/-- C5, amended: the token goes right after the first closing table tag;
absent any table, right after the first closing paragraph tag at or after
the midpoint; absent that, right after the last closing paragraph tag at
or before the midpoint; absent any paragraph tag, at the raw midpoint. -/
theorem c5_amended (content : Str) :
    (∀ i, occursAtB content tableCloseTag i = true →
      (∀ j < i, occursAtB content tableCloseTag j = false) →
      insertVideoPlaceholder content = spliceAt content nlWrap2 (i + 8))
    ∧ ((∀ j, occursAtB content tableCloseTag j = false) →
        (∀ k, content.length / 2 ≤ k → occursAtB content pCloseTag k = true →
          (∀ j, content.length / 2 ≤ j → j < k → occursAtB content pCloseTag j = false) →
          insertVideoPlaceholder content = spliceAt content nlWrap2 (k + 4))
        ∧ ((∀ k, content.length / 2 ≤ k → occursAtB content pCloseTag k = false) →
            (∀ k, k ≤ content.length / 2 → occursAtB content pCloseTag k = true →
              (∀ j, k < j → j ≤ content.length / 2 → occursAtB content pCloseTag j = false) →
              insertVideoPlaceholder content = spliceAt content nlWrap2 (k + 4))
            ∧ ((∀ k, occursAtB content pCloseTag k = false) →
                insertVideoPlaceholder content = spliceAt content nlWrap1 (content.length / 2)))) := by
  constructor
  · intro i hocc hmin
    match e : indexOfFrom content tableCloseTag 0 with
    | none =>
      have := indexOfFrom_spec_none content tableCloseTag 0 e i (Nat.zero_le i)
      rw [hocc] at this
      exact absurd this (by simp)
    | some i' =>
      obtain ⟨_, ho', hmin'⟩ := indexOfFrom_spec_some content tableCloseTag 0 i' e
      have hii : i = i' := by
        rcases Nat.lt_trichotomy i i' with hlt | heq | hgt
        · rw [hmin' i (Nat.zero_le i) hlt] at hocc; exact absurd hocc (by simp)
        · exact heq
        · rw [hmin i' hgt] at ho'; exact absurd ho' (by simp)
      subst hii
      rw [insertVideoPlaceholder, e]
  · intro hnt
    have et : indexOfFrom content tableCloseTag 0 = none := by
      match e : indexOfFrom content tableCloseTag 0 with
      | none => rfl
      | some i' =>
        obtain ⟨_, ho', _⟩ := indexOfFrom_spec_some content tableCloseTag 0 i' e
        rw [hnt i'] at ho'
        exact absurd ho' (by simp)
    refine ⟨?_, ?_⟩
    · intro k hk hocc hmin
      match e : indexOfFrom content pCloseTag (content.length / 2) with
      | none =>
        have := indexOfFrom_spec_none content pCloseTag _ e k hk
        rw [hocc] at this
        exact absurd this (by simp)
      | some k' =>
        obtain ⟨hk', ho', hmin'⟩ := indexOfFrom_spec_some content pCloseTag _ k' e
        have hkk : k = k' := by
          rcases Nat.lt_trichotomy k k' with hlt | heq | hgt
          · rw [hmin' k hk hlt] at hocc; exact absurd hocc (by simp)
          · exact heq
          · rw [hmin k' hk' hgt] at ho'; exact absurd ho' (by simp)
        subst hkk
        rw [insertVideoPlaceholder, et, e]
    · intro hnp
      have ep : indexOfFrom content pCloseTag (content.length / 2) = none := by
        match e : indexOfFrom content pCloseTag (content.length / 2) with
        | none => rfl
        | some k' =>
          obtain ⟨hk', ho', _⟩ := indexOfFrom_spec_some content pCloseTag _ k' e
          rw [hnp k' hk'] at ho'
          exact absurd ho' (by simp)
      constructor
      · intro k hk hocc hmax
        match e : lastIndexOfUpTo content pCloseTag (content.length / 2) with
        | none =>
          have := lastIndexOfUpTo_spec_none content pCloseTag _ e k hk
          rw [hocc] at this
          exact absurd this (by simp)
        | some k' =>
          obtain ⟨ho', hk', hmax'⟩ := lastIndexOfUpTo_spec_some content pCloseTag _ k' e
          have hkk : k = k' := by
            rcases Nat.lt_trichotomy k k' with hlt | heq | hgt
            · rw [hmax k' hlt hk'] at ho'; exact absurd ho' (by simp)
            · exact heq
            · rw [hmax' k hgt hk] at hocc; exact absurd hocc (by simp)
          subst hkk
          rw [insertVideoPlaceholder, et, ep, e]
      · intro hall
        have el : lastIndexOfUpTo content pCloseTag (content.length / 2) = none := by
          match e : lastIndexOfUpTo content pCloseTag (content.length / 2) with
          | none => rfl
          | some k' =>
            obtain ⟨ho', _, _⟩ := lastIndexOfUpTo_spec_some content pCloseTag _ k' e
            rw [hall k'] at ho'
            exact absurd ho' (by simp)
        rw [insertVideoPlaceholder, et, ep, el]

/-- Witness for the C5 amended theorem: with the table closing at index 9
of a concrete content, the token lands right after it. -/
theorem c5_witness :
    occursAtB (toStr ("a</table>b")) tableCloseTag 1 = true ∧
    insertVideoPlaceholder (toStr ("a</table>b")) =
      spliceAt (toStr ("a</table>b")) nlWrap2 9 :=
  ⟨by decide,
    (c5_amended (toStr ("a</table>b"))).1 1 (by decide) (by decide)⟩

/-- Error carried out of the image-generation retry loop
(ideogramApi.ts line 165). -/
def imgFailMsg : String := "Failed to generate image after multiple attempts"

/-- The retry loop of `generateImage` (ideogramApi.ts lines 62-166) as a
function of the environment: the list holds one entry per attempted API
call, `none` for a failed attempt (network error, non-2xx status, empty
or HTML body, missing data) and `some url` for a successful one.  The
loop makes at most `retryCount` attempts and throws the last error once
they are exhausted. -/
def generateImageLoop : Nat → List (Option Str) → Except String Str
  | 0, _ => Except.error imgFailMsg
  | _ + 1, [] => Except.error imgFailMsg
  | n + 1, o :: rest =>
    match o with
    | some url => Except.ok url
    | none => generateImageLoop n rest

/-- Model of `generateImage` with its default `retryCount = 3`. -/
def generateImage (attempts : List (Option Str)) : Except String Str :=
  generateImageLoop 3 attempts

/-- Model of `generateBlogImage` (ideogramApi.ts lines 218-418): prompt assembly
does not affect control flow; the catch block at lines 414-417 logs and
rethrows, so the result of `generateImage` is propagated unchanged. -/
def generateBlogImage (attempts : List (Option Str)) : Except String Str :=
  match generateImage attempts with
  | Except.ok url => Except.ok url
  | Except.error e => Except.error e

/-- The persisted outcome of one post generation. -/
structure PostRecord where
  slug : Str
  featuredImage : Option Str
deriving DecidableEq

/-- The image-and-persist tail of `generateBlog`
(generate-inline-blog-images.ts lines 495-614), entered after content,
preview and meta description succeeded.  The first component is the blog
record written to disk (`none` when nothing is persisted), the second the
function's return value (`some slug` or `null`).  A thrown image error is
caught by the outer catch (lines 609-614), which returns `null` before
any blog file is written; an empty image URL takes the explicit
`if (!imageUrl)` branch (lines 501-520) and persists the record without
`featuredImage`; a non-empty URL is downloaded (`downloadOk` models that
fetch) and stored as the featured image, whose optimised path is
abstracted to the URL itself. -/
def generateBlog (slug : Str) (imgAttempts : List (Option Str)) (downloadOk : Bool) :
    Option PostRecord × Option Str :=
  match generateBlogImage imgAttempts with
  | Except.error _ => (none, none)
  | Except.ok url =>
    if url = [] then (some { slug := slug, featuredImage := none }, some slug)
    else if downloadOk then (some { slug := slug, featuredImage := some url }, some slug)
    else (none, none)

/-- C1, counterexample to the claim as stated: when all three attempts
fail, `generateBlogImage` throws (returns the error) rather than an empty
image reference, and `generateBlog` persists no post record at all. -/
theorem c1_counterexample :
    generateBlogImage [none, none, none] = Except.error imgFailMsg ∧
    generateBlog (toStr ("t")) [none, none, none] true = (none, none) := by
  decide

/-- C1, amended: when every attempt fails, `generateBlogImage` propagates
the error and `generateBlog` catches it, returning `null` with no
persisted record; a post record without `featuredImage` is persisted
exactly when the image call succeeds with an empty URL. -/
theorem c1_amended (slug : Str) (attempts : List (Option Str)) (downloadOk : Bool)
    (hfail : ∀ o ∈ attempts, o = none) :
    generateBlogImage attempts = Except.error imgFailMsg ∧
    generateBlog slug attempts downloadOk = (none, none) ∧
    (∀ attempts2 : List (Option Str), generateBlogImage attempts2 = Except.ok [] →
      generateBlog slug attempts2 downloadOk =
        (some { slug := slug, featuredImage := none }, some slug)) := by
  have hloop : ∀ n, ∀ l : List (Option Str), (∀ o ∈ l, o = none) →
      generateImageLoop n l = Except.error imgFailMsg := by
    intro n
    induction n with
    | zero => intro l _; rw [generateImageLoop]
    | succ m ih =>
      intro l hl
      match l with
      | [] => rw [generateImageLoop]
      | o :: rest =>
        have ho : o = none := hl o (List.mem_cons_self o rest)
        subst ho
        rw [generateImageLoop]
        exact ih rest (fun x hx => hl x (List.mem_cons_of_mem _ hx))
  have himg : generateBlogImage attempts = Except.error imgFailMsg := by
    rw [generateBlogImage, generateImage, hloop 3 attempts hfail]
  refine ⟨himg, ?_, ?_⟩
  · rw [generateBlog, himg]
  · intro attempts2 h2
    rw [generateBlog, h2]
    simp

/-- Witness for the C1 amended theorem. -/
theorem c1_witness :
    (∀ o ∈ ([none, none, none] : List (Option Str)), o = none) ∧
    generateBlog (toStr ("s")) [none, none, none] true = (none, none) :=
  ⟨by decide, (c1_amended (toStr ("s")) [none, none, none] true (by decide)).2.1⟩

/-- Count of failed topics in the daily driver's batch loop
(generate-inline-blog-images.ts lines 936-955): one entry per topic,
`some slug` when `generateBlog` returned a slug, `none` when it returned
`null` or threw. -/
def failedCount (outcomes : List (Option Str)) : Nat :=
  (outcomes.filter (fun o => o.isNone)).length

/-- The successfully generated slugs collected by the loop. -/
def generatedSlugsOf (outcomes : List (Option Str)) : List Str :=
  outcomes.filterMap id

/-- The process exit status of `main` (lines 970-975): status 1 when any
blog failed, status 0 otherwise. -/
def driverExitCode (outcomes : List (Option Str)) : Nat :=
  if 0 < failedCount outcomes then 1 else 0

/-- Whether the index/sitemap/llms updates run (line 958): only when at
least one blog succeeded. -/
def indexUpdateRuns (outcomes : List (Option Str)) : Bool :=
  decide (0 < (generatedSlugsOf outcomes).length)

/-- C2, counterexample to the claim as stated: with one successful and
one failed topic the driver exits with status 1, although not every
topic in the batch failed. -/
theorem c2_counterexample :
    (generatedSlugsOf [some (toStr ("a")), none]).length = 1 ∧
    driverExitCode [some (toStr ("a")), none] = 1 := by
  decide

/-- C2, amended: the daily driver exits with a non-zero status exactly
when at least one topic in the batch failed — even if others succeeded —
and the index update runs exactly when at least one topic succeeded. -/
theorem c2_amended (outcomes : List (Option Str)) :
    (driverExitCode outcomes ≠ 0 ↔ ∃ o ∈ outcomes, o = none)
    ∧ (indexUpdateRuns outcomes = true ↔ ∃ s, some s ∈ outcomes) := by
  constructor
  · rw [driverExitCode]
    constructor
    · intro h
      by_cases hc : 0 < failedCount outcomes
      · rw [failedCount] at hc
        rcases List.exists_mem_of_length_pos hc with ⟨o, ho⟩
        have := List.mem_filter.mp ho
        exact ⟨o, this.1, Option.isNone_iff_eq_none.mp this.2⟩
      · rw [if_neg hc] at h
        exact absurd rfl h
    · intro ⟨o, ho, hnone⟩
      subst hnone
      have hm : (none : Option Str) ∈ outcomes.filter (fun o => o.isNone) :=
        List.mem_filter.mpr ⟨ho, rfl⟩
      have hpos : 0 < failedCount outcomes := by
        rw [failedCount]
        exact List.length_pos.mpr (List.ne_nil_of_mem hm)
      rw [if_pos hpos]
      exact one_ne_zero
  · rw [indexUpdateRuns]
    simp only [decide_eq_true_eq]
    constructor
    · intro h
      rcases List.exists_mem_of_length_pos h with ⟨s, hs⟩
      rcases List.mem_filterMap.mp hs with ⟨o, ho, heq⟩
      match o, heq with
      | some s', heq =>
        have : s' = s := by simpa using heq
        subst this
        exact ⟨s', ho⟩
    · intro ⟨s, hs⟩
      have : s ∈ generatedSlugsOf outcomes :=
        List.mem_filterMap.mpr ⟨some s, hs, rfl⟩
      exact List.length_pos.mpr (List.ne_nil_of_mem this)

/-- Generic insertion step for the stable sort used to model
`Array.prototype.sort` with a comparator. -/
def insB {α : Type} (le : α → α → Bool) (x : α) : List α → List α
  | [] => [x]
  | y :: ys => if le x y then x :: y :: ys else y :: insB le x ys

/-- Stable comparator sort modelling `Array.prototype.sort`. -/
def sortB {α : Type} (le : α → α → Bool) : List α → List α
  | [] => []
  | x :: xs => insB le x (sortB le xs)

theorem insB_perm {α : Type} (le : α → α → Bool) (x : α) :
    ∀ l : List α, List.Perm (insB le x l) (x :: l) := by
  intro l
  induction l with
  | nil => rw [insB]
  | cons y ys ih =>
    rw [insB]
    by_cases hle : le x y = true
    · rw [if_pos hle]
    · rw [if_neg hle]
      exact List.Perm.trans (List.Perm.cons y ih) (List.Perm.swap x y ys)

theorem sortB_perm {α : Type} (le : α → α → Bool) :
    ∀ l : List α, List.Perm (sortB le l) l := by
  intro l
  induction l with
  | nil => rw [sortB]
  | cons x xs ih =>
    rw [sortB]
    exact List.Perm.trans (insB_perm le x (sortB le xs)) (List.Perm.cons x ih)

theorem mem_sortB {α : Type} (le : α → α → Bool) (l : List α) (a : α) :
    a ∈ sortB le l ↔ a ∈ l :=
  (sortB_perm le l).mem_iff

/-- Lexicographic comparison of strings by code point, the behaviour of
the default `Array.prototype.sort` comparator on strings. -/
def strLeB : Str → Str → Bool
  | [], _ => true
  | _ :: _, [] => false
  | a :: as, b :: bs =>
    if a.toNat < b.toNat then true
    else if b.toNat < a.toNat then false
    else strLeB as bs

/-- JavaScript `keywords.sort()`. -/
def sortStrs (l : List Str) : List Str := sortB strLeB l

/-- JavaScript `Array.prototype.join('|')`. -/
def joinBar : List Str → Str
  | [] => []
  | [s] => s
  | s :: t :: rest => s ++ ('|') :: joinBar (t :: rest)

/-- Keyword-pair signature of a topic
(enhanced-topic-generator.ts line 481):
`topic._primaryKeywords?.sort().join('|') || 'unknown'` — the empty join
result is falsy and falls back to the literal string. -/
def pairSig (kws : List Str) : Str :=
  if joinBar (sortStrs kws) = [] then toStr ("unknown") else joinBar (sortStrs kws)

/-- Title normalisation used by the published-title duplicate check
(lines 436 and 473): `title.toLowerCase().trim()`. -/
def normTitle (t : Str) : Str := jsTrim (toLowerStr t)

/-- A candidate topic as produced by one `generateBlogTopic` call: the
AI/random environment supplies these, and `generateUniqueTopics` accepts
or rejects them. -/
structure CandTopic where
  title : Str
  slug : Str
  category : Str
  metaDescription : Str
  tags : List Str
  primaryKeywords : List Str
deriving DecidableEq

/-- A topic record as returned (after the internal `_primaryKeywords`
tracking field has been deleted, line 504). -/
structure TopicRec where
  title : Str
  slug : Str
  category : Str
  metaDescription : Str
  tags : List Str
deriving DecidableEq

/-- Dropping the internal tracking field. -/
def CandTopic.toRec (c : CandTopic) : TopicRec :=
  { title := c.title, slug := c.slug, category := c.category,
    metaDescription := c.metaDescription, tags := c.tags }

/-- The mutable state of the `generateUniqueTopics` loop (lines 414-419):
accepted topics, batch-internal slug set, used keywords, recent
categories and recent keyword-pair signatures. -/
structure GenState where
  topics : List TopicRec
  internalSlugs : List Str
  usedKeywords : List Str
  recentCategories : List Str
  recentKeywordPairs : List Str

/-- Published slugs loaded from the existing index (lines 431-434): only
truthy slugs are registered. -/
def pubSlugsOf (indexPosts : List (Str × Str)) : List Str :=
  (indexPosts.filter (fun q => decide (q.fst ≠ []))).map Prod.fst

/-- Published normalised titles loaded from the existing index
(lines 435-437): only truthy titles are registered. -/
def pubTitlesOf (indexPosts : List (Str × Str)) : List Str :=
  (indexPosts.filter (fun q => decide (q.snd ≠ []))).map (fun q => normTitle q.snd)

/-- The four reject-and-retry checks of the inner loop (lines 462-485):
nonempty slug not already in this batch, slug not published, normalised
title not published, keyword-pair signature not recently used. -/
def topicAccepted (pubSlugs pubTitles : List Str) (st : GenState) (c : CandTopic) : Bool :=
  !(decide (c.slug = []) || decide (c.slug ∈ st.internalSlugs))
  && !(decide (c.slug ∈ pubSlugs))
  && !(decide (normTitle c.title ∈ pubTitles))
  && !(decide (pairSig c.primaryKeywords ∈ st.recentKeywordPairs))

/-- Set insertion (JavaScript `Set.prototype.add`). -/
def addUnique (x : Str) (l : List Str) : List Str := if x ∈ l then l else l ++ [x]

/-- State update on acceptance (lines 487-505): record the slug, the
keywords and the pair signature, push the category into the sliding
window of 3, prune the pair history to 6 entries, append the topic. -/
def acceptTopic (st : GenState) (c : CandTopic) : GenState :=
  let pairs1 := st.recentKeywordPairs ++ [pairSig c.primaryKeywords]
  let cats1 := st.recentCategories ++ [c.category]
  { topics := st.topics ++ [c.toRec]
    internalSlugs := st.internalSlugs ++ [c.slug]
    usedKeywords := c.primaryKeywords.foldl (fun acc k => addUnique k acc) st.usedKeywords
    recentCategories := if 3 < cats1.length then cats1.drop 1 else cats1
    recentKeywordPairs := if 6 < pairs1.length then pairs1.drop 1 else pairs1 }

/-- The nested generation loop of `generateUniqueTopics` (lines 447-513):
the outer loop runs until `count` topics are collected; the inner loop
consumes one candidate per attempt, up to 5 attempts, and aborts the
whole batch once 5 consecutive candidates are rejected.  The candidate
stream is the environment: each entry is the topic produced by one
`generateBlogTopic` call. -/
def genLoop (count : Nat) (pubSlugs pubTitles : List Str) :
    List CandTopic → GenState → Nat → List TopicRec
  | [], st, _ => st.topics
  | c :: rest, st, attemptsLeft =>
    if count ≤ st.topics.length then st.topics
    else if topicAccepted pubSlugs pubTitles st c then
      genLoop count pubSlugs pubTitles rest (acceptTopic st c) 5
    else if attemptsLeft ≤ 1 then st.topics
    else genLoop count pubSlugs pubTitles rest st (attemptsLeft - 1)

/-- Initial loop state (lines 414-418). -/
def initGenState : GenState :=
  { topics := [], internalSlugs := [], usedKeywords := [],
    recentCategories := [], recentKeywordPairs := [] }

/-- Model of `generateUniqueTopics` (lines 413-516) over an index fixture given as
`(slug, title)` pairs and a candidate stream. -/
def generateUniqueTopics (count : Nat) (indexPosts : List (Str × Str))
    (cands : List CandTopic) : List TopicRec :=
  genLoop count (pubSlugsOf indexPosts) (pubTitlesOf indexPosts) cands initGenState 5

/-- Loop invariant for `genLoop`. -/
def GoodState (indexPosts : List (Str × Str)) (count : Nat) (st : GenState) : Prop :=
  (st.topics.map TopicRec.slug).Nodup
  ∧ (∀ t ∈ st.topics, t.slug ∈ st.internalSlugs)
  ∧ (∀ t ∈ st.topics, ∀ q ∈ indexPosts, t.slug ≠ q.fst)
  ∧ (∀ t ∈ st.topics, ∀ q ∈ indexPosts, q.snd ≠ [] → normTitle t.title ≠ normTitle q.snd)
  ∧ st.topics.length ≤ count

/-- Properties carried to the loop's output. -/
def OutProps (indexPosts : List (Str × Str)) (count : Nat) (out : List TopicRec) : Prop :=
  (out.map TopicRec.slug).Nodup
  ∧ (∀ t ∈ out, ∀ q ∈ indexPosts, t.slug ≠ q.fst)
  ∧ (∀ t ∈ out, ∀ q ∈ indexPosts, q.snd ≠ [] → normTitle t.title ≠ normTitle q.snd)
  ∧ out.length ≤ count

theorem topicAccepted_true {pubSlugs pubTitles : List Str} {st : GenState} {c : CandTopic}
    (h : topicAccepted pubSlugs pubTitles st c = true) :
    c.slug ≠ [] ∧ c.slug ∉ st.internalSlugs ∧ c.slug ∉ pubSlugs ∧
      normTitle c.title ∉ pubTitles := by
  rw [topicAccepted] at h
  simp only [Bool.and_eq_true, Bool.not_eq_true', Bool.or_eq_false_iff,
    decide_eq_false_iff_not] at h
  exact ⟨h.1.1.1.1, h.1.1.1.2, h.1.1.2, h.1.2⟩

theorem goodState_accept (indexPosts : List (Str × Str)) (count : Nat) (st : GenState)
    (c : CandTopic) (hg : GoodState indexPosts count st)
    (hlen : st.topics.length < count)
    (hacc : topicAccepted (pubSlugsOf indexPosts) (pubTitlesOf indexPosts) st c = true) :
    GoodState indexPosts count (acceptTopic st c) := by
  obtain ⟨hne, hnint, hnpub, hntit⟩ := topicAccepted_true hacc
  obtain ⟨hnd, hint, hslugs, htitles, hcnt⟩ := hg
  refine ⟨?_, ?_, ?_, ?_, ?_⟩
  · rw [acceptTopic]
    simp only [List.map_append, List.map_cons, List.map_nil]
    rw [List.nodup_append]
    refine ⟨hnd, List.nodup_singleton _, ?_⟩
    intro a ha hb
    have hac : a = c.slug := by simpa [CandTopic.toRec] using hb
    subst hac
    rcases List.mem_map.mp ha with ⟨t, htmem, hts⟩
    have := hint t htmem
    rw [hts] at this
    exact hnint this
  · intro t ht
    rw [acceptTopic] at ht ⊢
    simp only at ht ⊢
    rcases List.mem_append.mp ht with h1 | h1
    · exact List.mem_append.mpr (Or.inl (hint t h1))
    · have : t = c.toRec := by simpa using h1
      subst this
      exact List.mem_append.mpr (Or.inr (by simp [CandTopic.toRec]))
  · intro t ht q hq
    rw [acceptTopic] at ht
    simp only at ht
    rcases List.mem_append.mp ht with h1 | h1
    · exact hslugs t h1 q hq
    · have : t = c.toRec := by simpa using h1
      subst this
      show c.toRec.slug ≠ q.fst
      intro heq
      have hslug : c.slug = q.fst := by simpa [CandTopic.toRec] using heq
      apply hnpub
      rw [pubSlugsOf]
      apply List.mem_map.mpr
      refine ⟨q, List.mem_filter.mpr ⟨hq, ?_⟩, hslug.symm⟩
      rw [← hslug]
      simpa using hne
  · intro t ht q hq hqt
    rw [acceptTopic] at ht
    simp only at ht
    rcases List.mem_append.mp ht with h1 | h1
    · exact htitles t h1 q hq hqt
    · have : t = c.toRec := by simpa using h1
      subst this
      show normTitle c.toRec.title ≠ normTitle q.snd
      intro heq
      apply hntit
      rw [pubTitlesOf]
      apply List.mem_map.mpr
      refine ⟨q, List.mem_filter.mpr ⟨hq, by simpa using hqt⟩, ?_⟩
      simpa [CandTopic.toRec] using heq.symm
  · rw [acceptTopic]
    simp only [List.length_append, List.length_cons, List.length_nil]
    omega

theorem genLoop_out (indexPosts : List (Str × Str)) (count : Nat) :
    ∀ (cands : List CandTopic) (st : GenState) (att : Nat),
      GoodState indexPosts count st →
      OutProps indexPosts count
        (genLoop count (pubSlugsOf indexPosts) (pubTitlesOf indexPosts) cands st att) := by
  intro cands
  induction cands with
  | nil =>
    intro st att hg
    rw [genLoop]
    exact ⟨hg.1, hg.2.2.1, hg.2.2.2.1, hg.2.2.2.2⟩
  | cons c rest ih =>
    intro st att hg
    rw [genLoop]
    by_cases hfull : count ≤ st.topics.length
    · rw [if_pos hfull]
      exact ⟨hg.1, hg.2.2.1, hg.2.2.2.1, hg.2.2.2.2⟩
    · rw [if_neg hfull]
      by_cases hacc : topicAccepted (pubSlugsOf indexPosts) (pubTitlesOf indexPosts) st c = true
      · rw [if_pos hacc]
        exact ih (acceptTopic st c) 5
          (goodState_accept indexPosts count st c hg (by omega) hacc)
      · rw [if_neg hacc]
        by_cases hatt : att ≤ 1
        · rw [if_pos hatt]
          exact ⟨hg.1, hg.2.2.1, hg.2.2.2.1, hg.2.2.2.2⟩
        · rw [if_neg hatt]
          exact ih st (att - 1) hg

theorem genLoop_allBad (indexPosts : List (Str × Str)) (count : Nat) :
    ∀ (cands : List CandTopic) (st : GenState) (att : Nat),
      st.topics = [] →
      (∀ c ∈ cands, c.slug ∈ pubSlugsOf indexPosts) →
      genLoop count (pubSlugsOf indexPosts) (pubTitlesOf indexPosts) cands st att = [] := by
  intro cands
  induction cands with
  | nil =>
    intro st att hemp _
    rw [genLoop]
    exact hemp
  | cons c rest ih =>
    intro st att hemp hbad
    have hrej : topicAccepted (pubSlugsOf indexPosts) (pubTitlesOf indexPosts) st c = false := by
      rw [topicAccepted]
      have : c.slug ∈ pubSlugsOf indexPosts := hbad c (List.mem_cons_self c rest)
      simp [this]
    rw [genLoop]
    by_cases hfull : count ≤ st.topics.length
    · rw [if_pos hfull]; exact hemp
    · rw [if_neg hfull, hrej]
      simp only [Bool.false_eq_true, if_false]
      by_cases hatt : att ≤ 1
      · rw [if_pos hatt]; exact hemp
      · rw [if_neg hatt]
        exact ih st (att - 1) hemp (fun x hx => hbad x (List.mem_cons_of_mem _ hx))

/-- C3 (confirmed): every batch returned by `generateUniqueTopics` has
pairwise-distinct slugs, none of which equals a slug of the supplied
index; no returned topic's normalised title equals the normalised title
of a (non-empty-titled) index entry; at most `count` topics are
returned; and if every candidate the environment can produce collides
with a published slug, the attempt cap aborts the batch and the result
is empty. -/
theorem c3_unique_topics (count : Nat) (indexPosts : List (Str × Str))
    (cands : List CandTopic) :
    ((generateUniqueTopics count indexPosts cands).map TopicRec.slug).Nodup
    ∧ (∀ t ∈ generateUniqueTopics count indexPosts cands, ∀ q ∈ indexPosts, t.slug ≠ q.fst)
    ∧ (∀ t ∈ generateUniqueTopics count indexPosts cands, ∀ q ∈ indexPosts,
        q.snd ≠ [] → normTitle t.title ≠ normTitle q.snd)
    ∧ (generateUniqueTopics count indexPosts cands).length ≤ count
    ∧ ((∀ c ∈ cands, c.slug ∈ pubSlugsOf indexPosts) →
        generateUniqueTopics count indexPosts cands = []) := by
  have hinit : GoodState indexPosts count initGenState := by
    refine ⟨List.nodup_nil, ?_, ?_, ?_, ?_⟩ <;> simp [initGenState]
  have h := genLoop_out indexPosts count cands initGenState 5 hinit
  exact ⟨h.1, h.2.1, h.2.2.1, h.2.2.2,
    fun hbad => genLoop_allBad indexPosts count cands initGenState 5 rfl hbad⟩

/-- Candidate fixture for the C3 witness. -/
def c3cands : List CandTopic :=
  [{ title := toStr ("T One"), slug := toStr ("t-one"), category := toStr ("Wellness"),
     metaDescription := [], tags := [], primaryKeywords := [toStr ("sugar")] }]

/-- Index fixture for the C3 witness: the candidate's slug is already
published. -/
def c3index : List (Str × Str) := [(toStr ("t-one"), toStr ("T One"))]

/-- Witness for C3: with every candidate colliding with the index, the
batch aborts early and returns no topics (fewer than the 2 requested). -/
theorem c3_witness :
    (∀ c ∈ c3cands, c.slug ∈ pubSlugsOf c3index) ∧
    generateUniqueTopics 2 c3index c3cands = [] :=
  ⟨by decide, (c3_unique_topics 2 c3index c3cands).2.2.2.2 (by decide)⟩

/-- A blog post file's JSON object as both index builders read it.
Missing string-valued fields are modelled as the empty (falsy) string;
`tags` is `none` when absent or not an array; `relatedPostSlugs` is kept
so spread-copying (`{...blogData}`) is observable. -/
structure RawPost where
  title : Str
  slug : Str
  publishDate : Str
  author : Str
  category : Str
  content : Str
  metaDescription : Str
  articleId : Str
  tags : Option (List Str)
  featuredImage : Option Str
  filePath : Option Str
  relatedPostSlugs : Option (List Str)
deriving DecidableEq

instance : Inhabited RawPost :=
  ⟨{ title := [], slug := [], publishDate := [], author := [], category := [],
     content := [], metaDescription := [], articleId := [], tags := none,
     featuredImage := none, filePath := none, relatedPostSlugs := none }⟩

/-- One entry of the blog-data directory: a JSON file (with its parse
result, `none` for unparsable content) or a subdirectory of files. -/
inductive FsItem where
  | file (name : Str) (data : Option RawPost)
  | dir (name : Str) (entries : List (Str × Option RawPost))
deriving DecidableEq

/-- The blog-data directory listing. -/
abbrev FileSys := List FsItem

/-- JavaScript `item.endsWith('.json')`. -/
def isJsonName (n : Str) : Bool := strEndsWith n (toStr (".json"))

/-- The name of the index file, excluded from every scan. -/
def indexJsonName : Str := toStr ("index.json")

/-- The date-directory test `/^\d{2}-\d{2}-\d{4}$/`. -/
def isDateDirName (n : Str) : Bool :=
  match n with
  | [a, b, c, d, e, f, g, h, i, j] =>
    a.isDigit && b.isDigit && (c == ('-')) && d.isDigit && e.isDigit &&
    (f == ('-')) && g.isDigit && h.isDigit && i.isDigit && j.isDigit
  | _ => false

/-- Model of `readBlogJson` of rebuild-index.js (lines 39-53): accept only files
that parse and have truthy slug, title and publishDate. -/
def readBlogJsonRebuild (d : Option RawPost) : Option RawPost :=
  match d with
  | none => none
  | some p => if p.slug ≠ [] ∧ p.title ≠ [] ∧ p.publishDate ≠ [] then some p else none

/-- The content preview stored in the index
(`content ? content.substring(0, 300) + '...' : ''`). -/
def previewOf (content : Str) : Str :=
  if content = [] then [] else content.take 300 ++ toStr ("...")

/-- JavaScript `x || dflt` for an optional string value. -/
def jsOrStr (x : Option Str) (dflt : Str) : Str :=
  match x with
  | some s => if s = [] then dflt else s
  | none => dflt

/-- JavaScript `path.join(dir, file)`. -/
def pathJoin (dir f : Str) : Str := dir ++ ('/') :: f

/-- Index entry built from a root-level post file (rebuild-index.js
lines 63-76): preview content, filePath defaulted to the file name. -/
def rebuildRootEntry (name : Str) (p : RawPost) : RawPost :=
  { p with content := previewOf p.content, filePath := some (jsOrStr p.filePath name) }

/-- Index entry built from a dated-directory post file (lines 90-97). -/
def rebuildDatedEntry (dirName fname : Str) (p : RawPost) : RawPost :=
  { p with content := previewOf p.content, filePath := some (pathJoin dirName fname) }

/-- Scan of one date-named directory (lines 84-100). -/
def scanDatedRebuild (dirName : Str) : List (Str × Option RawPost) → List RawPost
  | [] => []
  | (fname, d) :: rest =>
    (if isJsonName fname then
      match readBlogJsonRebuild d with
      | some p => [rebuildDatedEntry dirName fname p]
      | none => []
    else []) ++ scanDatedRebuild dirName rest

/-- The full directory scan of rebuild-index.js (lines 56-103):
root-level `.json` files except `index.json`, plus files inside
date-named directories. -/
def scanRebuild : FileSys → List RawPost
  | [] => []
  | FsItem.file name d :: rest =>
    (if isJsonName name = true ∧ name ≠ indexJsonName then
      match readBlogJsonRebuild d with
      | some p => [rebuildRootEntry name p]
      | none => []
    else []) ++ scanRebuild rest
  | FsItem.dir name entries :: rest =>
    (if isDateDirName name then scanDatedRebuild name entries else []) ++ scanRebuild rest

/-- Sort by publish date, newest first, over an abstract date valuation
`dv` standing for `new Date(s).getTime()` (the comparator
`(a, b) => dateB - dateA`). -/
def sortByDateDesc (dv : Str → Int) (l : List RawPost) : List RawPost :=
  sortB (fun a b => decide (dv b.publishDate ≤ dv a.publishDate)) l

/-- Shared-tag test of the related-post filter (lines 115-116). -/
def sharesTagB (p q : RawPost) : Bool :=
  match p.tags, q.tags with
  | some ts, some qs => ts.any (fun t => decide (t ∈ qs))
  | _, _ => false

/-- Same-category test of the related-post filter (line 118): both
categories must be truthy and equal. -/
def sameCategoryB (p q : RawPost) : Bool :=
  decide (p.category ≠ []) && decide (q.category ≠ []) && decide (p.category = q.category)

/-- The related-post candidate filter (lines 110-121). -/
def relatedCandidate (p q : RawPost) : Bool :=
  decide (q.slug ≠ p.slug) && (sharesTagB p q || sameCategoryB p q)

/-- The `relatedPostSlugs` computation for one post (lines 124-127): filter,
re-sort by recency, take 4, project to slugs. -/
def relatedSlugsFor (dv : Str → Int) (sorted : List RawPost) (p : RawPost) : List Str :=
  ((sortByDateDesc dv (sorted.filter (fun q => relatedCandidate p q))).take 4).map
    RawPost.slug

/-- The related-post pass over the sorted post list (lines 109-128). -/
def withRelated (dv : Str → Int) (sorted : List RawPost) : List RawPost :=
  sorted.map (fun p => { p with relatedPostSlugs := some (relatedSlugsFor dv sorted p) })

/-- One tag-frequency bump, preserving first-occurrence key order as a
JavaScript object does. -/
def bumpTag : List (Str × Nat) → Str → List (Str × Nat)
  | [], t => [(t, 1)]
  | (s, n) :: rest, t => if s = t then (s, n + 1) :: rest else (s, n) :: bumpTag rest t

/-- Tag frequency across all posts (rebuild-index.js lines 132-139,
guard `Array.isArray(post.tags)`). -/
def tagFrequency (posts : List RawPost) : List (Str × Nat) :=
  posts.foldl (fun acc p =>
    match p.tags with
    | some ts => ts.foldl bumpTag acc
    | none => acc) []

/-- The 10 most frequent tags (lines 141-144): stable sort by count
descending, take 10. -/
def topTagsOf (freq : List (Str × Nat)) : List Str :=
  ((sortB (fun a b => decide (b.snd ≤ a.snd)) freq).take 10).map Prod.fst

/-- Per-post tag trimming (rebuild-index.js lines 146-150). -/
def filterTagsRebuild (top : List Str) (p : RawPost) : RawPost :=
  match p.tags with
  | some ts => { p with tags := some (ts.filter (fun t => decide (t ∈ top))) }
  | none => p

/-- The index file's structure. -/
structure IndexData where
  lastUpdated : Str
  posts : List RawPost

/-- The sorted, related-links-annotated post list of rebuild-index.js. -/
def postsWithRelated (dv : Str → Int) (fs : FileSys) : List RawPost :=
  withRelated dv (sortByDateDesc dv (scanRebuild fs))

/-- The `posts` array written by rebuild-index.js `updateIndexFile`
(lines 33-160). -/
def rebuildIndexPosts (dv : Str → Int) (fs : FileSys) : List RawPost :=
  (postsWithRelated dv fs).map
    (filterTagsRebuild (topTagsOf (tagFrequency (postsWithRelated dv fs))))

/-- The full index produced by rebuild-index.js. -/
def rebuildIndex (dv : Str → Int) (now : Str) (fs : FileSys) : IndexData :=
  { lastUpdated := now, posts := rebuildIndexPosts dv fs }

/-- Writing `index.json` at the root of the blog-data directory:
replace it when present, create it otherwise.  `d` is whatever a later
scan would parse out of the written file. -/
def setIndexFile (fs : FileSys) (d : Option RawPost) : FileSys :=
  if fs.any (fun it => match it with
      | FsItem.file n _ => n == indexJsonName
      | FsItem.dir _ _ => false) then
    fs.map (fun it => match it with
      | FsItem.file n c => if n == indexJsonName then FsItem.file n d else FsItem.file n c
      | FsItem.dir n es => FsItem.dir n es)
  else fs ++ [FsItem.file indexJsonName d]

theorem scanRebuild_append (l1 l2 : FileSys) :
    scanRebuild (l1 ++ l2) = scanRebuild l1 ++ scanRebuild l2 := by
  induction l1 with
  | nil => rw [List.nil_append, scanRebuild, List.nil_append]
  | cons it rest ih =>
    match it with
    | FsItem.file name d =>
      rw [List.cons_append, scanRebuild, scanRebuild, ih, List.append_assoc]
    | FsItem.dir name es =>
      rw [List.cons_append, scanRebuild, scanRebuild, ih, List.append_assoc]

theorem scanRebuild_map_replace (d : Option RawPost) :
    ∀ fs : FileSys,
      scanRebuild (fs.map (fun it => match it with
        | FsItem.file n c =>
          if n == indexJsonName then FsItem.file n d else FsItem.file n c
        | FsItem.dir n es => FsItem.dir n es)) = scanRebuild fs := by
  intro fs
  induction fs with
  | nil => rw [List.map_nil]
  | cons it rest ih =>
    match it with
    | FsItem.file n c =>
      simp only [List.map_cons]
      by_cases hn : (n == indexJsonName) = true
      · have hne : n = indexJsonName := eq_of_beq hn
        rw [if_pos hn]
        rw [scanRebuild, scanRebuild, ih]
        subst hne
        rw [if_neg (by simp), if_neg (by simp)]
      · rw [if_neg hn]
        rw [scanRebuild, scanRebuild, ih]
    | FsItem.dir n es =>
      simp only [List.map_cons]
      rw [scanRebuild, scanRebuild, ih]

theorem scanRebuild_setIndexFile (fs : FileSys) (d : Option RawPost) :
    scanRebuild (setIndexFile fs d) = scanRebuild fs := by
  rw [setIndexFile]
  by_cases hany : fs.any (fun it => match it with
      | FsItem.file n _ => n == indexJsonName
      | FsItem.dir _ _ => false) = true
  · rw [if_pos hany]
    exact scanRebuild_map_replace d fs
  · rw [if_neg hany, scanRebuild_append]
    have hone : scanRebuild [FsItem.file indexJsonName d] = [] := by
      rw [scanRebuild, if_neg (by simp), scanRebuild, List.append_nil]
    rw [hone, List.append_nil]

/-- C6 (confirmed): rebuilding the index is idempotent on the posts
array.  The only file the rebuild writes is `index.json`, which every
scan skips by name, so a second rebuild over the updated directory —
whatever the written file parses to and whatever the two run times are —
produces exactly the same posts array. -/
theorem c6_idempotent (dv : Str → Int) (t1 t2 : Str) (fs : FileSys) (d : Option RawPost) :
    (rebuildIndex dv t2 (setIndexFile fs d)).posts = (rebuildIndex dv t1 fs).posts := by
  show rebuildIndexPosts dv (setIndexFile fs d) = rebuildIndexPosts dv fs
  rw [rebuildIndexPosts, rebuildIndexPosts, postsWithRelated, postsWithRelated,
    scanRebuild_setIndexFile]

theorem filterTagsRebuild_slug (top : List Str) (p : RawPost) :
    (filterTagsRebuild top p).slug = p.slug := by
  rw [filterTagsRebuild]
  match p.tags with
  | some ts => rfl
  | none => rfl

theorem filterTagsRebuild_related (top : List Str) (p : RawPost) :
    (filterTagsRebuild top p).relatedPostSlugs = p.relatedPostSlugs := by
  rw [filterTagsRebuild]
  match p.tags with
  | some ts => rfl
  | none => rfl

/-- C7 (confirmed): in the index produced by rebuild-index.js, every
post's related-slug list has at most 4 entries, never contains the
post's own slug, and each listed slug belongs to another scanned post
that shares a tag with, or has the same (non-empty) category as, the
scanned post carrying this slug. -/
theorem c7_related_sound (dv : Str → Int) (now : Str) (fs : FileSys)
    (p : RawPost) (hp : p ∈ (rebuildIndex dv now fs).posts)
    (rel : List Str) (hrel : p.relatedPostSlugs = some rel) :
    rel.length ≤ 4 ∧ p.slug ∉ rel ∧
      ∀ s ∈ rel, s ≠ p.slug ∧
        ∃ p0 ∈ scanRebuild fs, p0.slug = p.slug ∧
          ∃ q ∈ scanRebuild fs, q.slug = s ∧
            (sharesTagB p0 q = true ∨ sameCategoryB p0 q = true) := by
  have hp' : p ∈ rebuildIndexPosts dv fs := hp
  rw [rebuildIndexPosts] at hp'
  rcases List.mem_map.mp hp' with ⟨p1, hp1, hp1e⟩
  rw [postsWithRelated, withRelated] at hp1
  rcases List.mem_map.mp hp1 with ⟨p0, hp0, hp0e⟩
  have hslug : p.slug = p0.slug := by
    rw [← hp1e, filterTagsRebuild_slug, ← hp0e]
  have hrel2 : p.relatedPostSlugs =
      some (relatedSlugsFor dv (sortByDateDesc dv (scanRebuild fs)) p0) := by
    rw [← hp1e, filterTagsRebuild_related, ← hp0e]
  rw [hrel2] at hrel
  have hreleq : rel = relatedSlugsFor dv (sortByDateDesc dv (scanRebuild fs)) p0 := by
    simpa using hrel.symm
  subst hreleq
  have hp0mem : p0 ∈ scanRebuild fs := (mem_sortB _ _ p0).mp hp0
  have hsound : ∀ s ∈ relatedSlugsFor dv (sortByDateDesc dv (scanRebuild fs)) p0,
      s ≠ p.slug ∧
        ∃ p0' ∈ scanRebuild fs, p0'.slug = p.slug ∧
          ∃ q ∈ scanRebuild fs, q.slug = s ∧
            (sharesTagB p0' q = true ∨ sameCategoryB p0' q = true) := by
    intro s hs
    rw [relatedSlugsFor] at hs
    rcases List.mem_map.mp hs with ⟨q, hq, hqs⟩
    have hq2 := List.mem_of_mem_take hq
    have hq3 := (mem_sortB _ _ q).mp hq2
    have hq4 := List.mem_filter.mp hq3
    have hq5 : q ∈ scanRebuild fs := (mem_sortB _ _ q).mp hq4.1
    have hcand := hq4.2
    rw [relatedCandidate] at hcand
    simp only [Bool.and_eq_true, decide_eq_true_eq, Bool.or_eq_true] at hcand
    refine ⟨?_, p0, hp0mem, hslug.symm, q, hq5, hqs, hcand.2⟩
    rw [← hqs, hslug]
    exact hcand.1
  refine ⟨?_, ?_, hsound⟩
  · rw [relatedSlugsFor, List.length_map]
    exact List.length_take_le 4 _
  · intro hmem
    exact (hsound p.slug hmem).1 rfl

/-- Trivial date valuation used by concrete witnesses. -/
def dv0 : Str → Int := fun _ => 0

/-- Witness fixture: post A, tagged sugar and health, category
Nutrition. -/
def c7postA : RawPost :=
  { title := toStr ("A"), slug := toStr ("a"), publishDate := toStr ("2024-01-01"),
    author := [], category := toStr ("Nutrition"), content := toStr ("xyz"),
    metaDescription := [], articleId := [], tags := some [toStr ("sugar"), toStr ("health")],
    featuredImage := none, filePath := none, relatedPostSlugs := none }

/-- Witness fixture: post B, tagged sugar, category Wellness. -/
def c7postB : RawPost :=
  { title := toStr ("B"), slug := toStr ("b"), publishDate := toStr ("2024-01-02"),
    author := [], category := toStr ("Wellness"), content := toStr ("uvw"),
    metaDescription := [], articleId := [], tags := some [toStr ("sugar")],
    featuredImage := none, filePath := none, relatedPostSlugs := none }

/-- Witness fixture: a two-post blog-data directory. -/
def c7fs : FileSys :=
  [FsItem.file (toStr ("a.json")) (some c7postA),
   FsItem.file (toStr ("b.json")) (some c7postB)]

/-- Witness for C7, on a concrete two-post index whose posts share the
tag sugar. -/
theorem c7_witness :
    ((rebuildIndex dv0 (toStr ("t")) c7fs).posts.headI.relatedPostSlugs.getD []).length ≤ 4 ∧
    (rebuildIndex dv0 (toStr ("t")) c7fs).posts.headI.slug ∉
      (rebuildIndex dv0 (toStr ("t")) c7fs).posts.headI.relatedPostSlugs.getD [] := by
  have h := c7_related_sound dv0 (toStr ("t")) c7fs
    ((rebuildIndex dv0 (toStr ("t")) c7fs).posts.headI) (by decide)
    ((rebuildIndex dv0 (toStr ("t")) c7fs).posts.headI.relatedPostSlugs.getD []) (by decide)
  exact ⟨h.1, h.2.1⟩

/-- Source files accepted by the daily driver's own `updateIndexFile`
scan (generate-inline-blog-images.ts lines 626-702), inside one dated
directory: each accepted file yields the filePath string the entry will
carry and the raw parsed post. -/
def dailyScanSourcesDir (dirName : Str) : List (Str × Option RawPost) → List (Str × RawPost)
  | [] => []
  | (fname, d) :: rest =>
    (if isJsonName fname then
      match d with
      | some p => if p.slug ≠ [] ∧ p.title ≠ [] then [(pathJoin dirName fname, p)] else []
      | none => []
    else []) ++ dailyScanSourcesDir dirName rest

/-- Source files accepted by the daily driver's scan: root-level `.json`
files except `index.json` (filePath defaulting to the file name when the
post lacks one, lines 666-675) plus dated-directory files (filePath set
to the joined relative path, line 695).  Unlike rebuild-index.js, only
slug and title are required (lines 631-635); a missing publishDate is
defaulted later. -/
def dailyScanSources : FileSys → List (Str × RawPost)
  | [] => []
  | FsItem.file name d :: rest =>
    (if isJsonName name = true ∧ name ≠ indexJsonName then
      match d with
      | some p => if p.slug ≠ [] ∧ p.title ≠ [] then [(jsOrStr p.filePath name, p)] else []
      | none => []
    else []) ++ dailyScanSources rest
  | FsItem.dir name entries :: rest =>
    (if isDateDirName name then dailyScanSourcesDir name entries else []) ++ dailyScanSources rest

/-- The default publish date for post files lacking one (line 640). -/
def epochDateStr : Str := toStr ("1970-01-01T00:00:00.000+00:00")

/-- The index entry the daily driver builds from one accepted source
file: spread of the parsed post with publishDate defaulted (lines
638-641), content replaced by the preview (lines 664, 690) and filePath
assigned — every other field, `relatedPostSlugs` included, is copied
through the spread unchanged. -/
def dailyEntryOf (src : Str × RawPost) : RawPost :=
  { src.snd with
    publishDate := if src.snd.publishDate = [] then epochDateStr else src.snd.publishDate
    content := previewOf src.snd.content
    filePath := some src.fst }

/-- The daily driver's full scan result. -/
def scanDaily (fs : FileSys) : List RawPost := (dailyScanSources fs).map dailyEntryOf

/-- Tag frequency in the daily driver (lines 708-715), guarded by
`post.tags && post.tags.length`. -/
def tagFrequencyDaily (posts : List RawPost) : List (Str × Nat) :=
  posts.foldl (fun acc p =>
    match p.tags with
    | some ts => if ts ≠ [] then ts.foldl bumpTag acc else acc
    | none => acc) []

/-- Per-post tag trimming in the daily driver (lines 724-728), guarded
by `post.tags && post.tags.length`. -/
def filterTagsDaily (top : List Str) (p : RawPost) : RawPost :=
  match p.tags with
  | some ts =>
    if ts ≠ [] then { p with tags := some (ts.filter (fun t => decide (t ∈ top))) } else p
  | none => p

/-- The daily driver's scanned posts sorted by publish date (line 705). -/
def dailySortedPosts (dv : Str → Int) (fs : FileSys) : List RawPost :=
  sortByDateDesc dv (scanDaily fs)

/-- The `posts` array written by the daily driver's `updateIndexFile`
(lines 620-744): scan, sort, trim tags — no related-post computation. -/
def dailyIndexPosts (dv : Str → Int) (fs : FileSys) : List RawPost :=
  (dailySortedPosts dv fs).map
    (filterTagsDaily (topTagsOf (tagFrequencyDaily (dailySortedPosts dv fs))))

/-- The full index produced by the daily driver's `updateIndexFile`. -/
def dailyUpdateIndexFile (dv : Str → Int) (now : Str) (fs : FileSys) : IndexData :=
  { lastUpdated := now, posts := dailyIndexPosts dv fs }

/-- C10 (confirmed): every entry of the daily driver's rebuilt index is
a field-for-field copy of some accepted source post, except that content
becomes the 300-character preview, publishDate is defaulted to the 1970
epoch when absent, filePath is the scan-assigned path, and tags are
trimmed to the 10 most frequent; in particular `relatedPostSlugs` is
copied unchanged — never computed — while the standalone rebuild-index
script sets it on every entry. -/
theorem c10_frame (dv : Str → Int) (now : Str) (fs : FileSys) (e : RawPost)
    (he : e ∈ (dailyUpdateIndexFile dv now fs).posts) :
    (∃ fp p, (fp, p) ∈ dailyScanSources fs ∧
      e.title = p.title ∧ e.slug = p.slug ∧ e.author = p.author ∧
      e.category = p.category ∧ e.metaDescription = p.metaDescription ∧
      e.articleId = p.articleId ∧ e.featuredImage = p.featuredImage ∧
      e.relatedPostSlugs = p.relatedPostSlugs ∧
      e.content = previewOf p.content ∧
      e.publishDate = (if p.publishDate = [] then epochDateStr else p.publishDate) ∧
      e.filePath = some fp ∧
      (match p.tags with
       | some ts =>
         if ts ≠ [] then
           e.tags = some (ts.filter (fun t =>
             decide (t ∈ topTagsOf (tagFrequencyDaily (dailySortedPosts dv fs)))))
         else e.tags = some ts
       | none => e.tags = none))
    ∧ (∀ q ∈ (rebuildIndex dv now fs).posts, q.relatedPostSlugs.isSome = true) := by
  constructor
  · have he' : e ∈ dailyIndexPosts dv fs := he
    rw [dailyIndexPosts] at he'
    rcases List.mem_map.mp he' with ⟨e1, he1, he1e⟩
    have he1' : e1 ∈ scanDaily fs :=
      (mem_sortB _ _ e1).mp he1
    rw [scanDaily] at he1'
    rcases List.mem_map.mp he1' with ⟨src, hsrc, hsrce⟩
    refine ⟨src.fst, src.snd, by simpa using hsrc, ?_⟩
    subst he1e
    subst hsrce
    rw [filterTagsDaily, dailyEntryOf]
    match hts : src.snd.tags with
    | some ts =>
      simp only
      by_cases hne : ts ≠ []
      · rw [if_pos hne]
        refine ⟨rfl, rfl, rfl, rfl, rfl, rfl, rfl, rfl, rfl, rfl, rfl, ?_⟩
        rw [if_pos hne]
      · rw [if_neg hne]
        refine ⟨rfl, rfl, rfl, rfl, rfl, rfl, rfl, rfl, rfl, rfl, rfl, ?_⟩
        rw [if_neg hne]
    | none =>
      simp
  · intro q hq
    have hq' : q ∈ rebuildIndexPosts dv fs := hq
    rw [rebuildIndexPosts] at hq'
    rcases List.mem_map.mp hq' with ⟨q1, hq1, hq1e⟩
    rw [postsWithRelated, withRelated] at hq1
    rcases List.mem_map.mp hq1 with ⟨q0, _, hq0e⟩
    rw [← hq1e, filterTagsRebuild_related, ← hq0e]
    rfl

/-- Witness fixture: a post file lacking publishDate and filePath. -/
def c10post : RawPost :=
  { title := toStr ("Hello"), slug := toStr ("hello"), publishDate := [],
    author := toStr ("Team"), category := toStr ("Wellness"),
    content := toStr ("body text"), metaDescription := toStr ("md"),
    articleId := toStr ("id1"), tags := some [toStr ("sugar")],
    featuredImage := none, filePath := none, relatedPostSlugs := none }

/-- Witness fixture: a one-post blog-data directory. -/
def c10fs : FileSys := [FsItem.file (toStr ("hello.json")) (some c10post)]

/-- Witness fixture: the single entry the daily driver's rebuild puts in
the index for `c10fs`. -/
def c10entry : RawPost := (dailyUpdateIndexFile dv0 (toStr ("t")) c10fs).posts.headI

/-- Witness for C10, on a concrete one-post directory. -/
theorem c10_witness :
    (∃ fp p, (fp, p) ∈ dailyScanSources c10fs ∧
      c10entry.title = p.title ∧ c10entry.slug = p.slug ∧ c10entry.author = p.author ∧
      c10entry.category = p.category ∧ c10entry.metaDescription = p.metaDescription ∧
      c10entry.articleId = p.articleId ∧ c10entry.featuredImage = p.featuredImage ∧
      c10entry.relatedPostSlugs = p.relatedPostSlugs ∧
      c10entry.content = previewOf p.content ∧
      c10entry.publishDate = (if p.publishDate = [] then epochDateStr else p.publishDate) ∧
      c10entry.filePath = some fp ∧
      (match p.tags with
       | some ts =>
         if ts ≠ [] then
           c10entry.tags = some (ts.filter (fun t =>
             decide (t ∈ topTagsOf (tagFrequencyDaily (dailySortedPosts dv0 c10fs)))))
         else c10entry.tags = some ts
       | none => c10entry.tags = none))
    ∧ (∀ q ∈ (rebuildIndex dv0 (toStr ("t")) c10fs).posts, q.relatedPostSlugs.isSome = true) :=
  c10_frame dv0 (toStr ("t")) c10fs c10entry (by decide)

/-- Witness for C2: a batch with one success and one failure exits
non-zero. -/
theorem c2_witness : driverExitCode [some (toStr ("a")), none] ≠ 0 :=
  (c2_amended [some (toStr ("a")), none]).1.mpr ⟨none, by decide, rfl⟩

/-- Witness for C4: the fallback slug of a concrete title has no edge
hyphen. -/
theorem c4_witness : noEdgeHyphen (generateSlug (toStr ("Sugar Detox!"))) = true :=
  (c4_amended (toStr ("Sugar Detox!")) none).1.2

/-- Witness for C6, at a concrete (empty) directory. -/
theorem c6_witness :
    (rebuildIndex dv0 (toStr ("t2")) (setIndexFile [] none)).posts =
      (rebuildIndex dv0 (toStr ("t1")) []).posts :=
  c6_idempotent dv0 (toStr ("t1")) (toStr ("t2")) [] none
